import Mathlib

set_option maxRecDepth 20000

/-!
Verification development for the skill-builder toolkit.

The repository's two executable components are embedded shallowly:
  * `scripts/validate-skill.ts` — directory scanner producing Error/Warning
    findings from regex pattern sets, with a documentation-context
    suppression heuristic;
  * the subagent generator (`generate-subagent.ts`) — front-matter parsing
    and template placeholder substitution.

Pure text processing is modelled over `List Char`; the JavaScript regexes
appearing in the source are modelled by a small backtracking regex engine
(`RE`) whose constructors cover exactly the constructs those regexes use
(literal characters, case-insensitive literals, character classes, greedy
star over a character class, alternation).  File-system access is modelled
by explicit tree / map structures; `process.exit` codes and `console.log`
output are modelled as returned values.
-/

/-- JS whitespace: the characters matched by the regex class `\s` and
    removed by `String.prototype.trim` (ECMA-262 WhiteSpace ∪ LineTerminator). -/
def jsSpace (c : Char) : Bool :=
  c == ' ' || c == '\t' || c == '\n' || c == '\r' || c == '\x0b' || c == '\x0c' ||
  c.val == 0xa0 || c.val == 0x1680 || (0x2000 ≤ c.val && c.val ≤ 0x200a) ||
  c.val == 0x2028 || c.val == 0x2029 || c.val == 0x202f || c.val == 0x205f ||
  c.val == 0x3000 || c.val == 0xfeff

/-- Boolean prefix test on character lists (models `String.prototype.startsWith`
    and anchored regex matching of a literal). -/
def isPrefixOfB : List Char → List Char → Bool
  | [], _ => true
  | _ :: _, [] => false
  | a :: as, b :: bs => a == b && isPrefixOfB as bs

/-- Boolean substring test (models `String.prototype.includes`). -/
def containsSub (needle : List Char) : List Char → Bool
  | [] => isPrefixOfB needle []
  | c :: rest => isPrefixOfB needle (c :: rest) || containsSub needle rest

/-- `String.prototype.includes` on Lean strings. -/
def strIncludes (hay needle : String) : Bool :=
  containsSub needle.toList hay.toList

/-- `String.prototype.endsWith` (and JS `path.endsWith`): a suffix test,
    computed over the character lists. -/
def strEndsWith (s suffixStr : String) : Bool :=
  isPrefixOfB suffixStr.toList.reverse s.toList.reverse

/-- Index of the first occurrence of `needle` in the scanned list, if any. -/
def findSubIdx (needle : List Char) : List Char → Option Nat
  | [] => if isPrefixOfB needle [] then some 0 else none
  | c :: rest =>
    if isPrefixOfB needle (c :: rest) then some 0
    else (findSubIdx needle rest).map (· + 1)

/-- Split a character list at every occurrence of the separator character
    (models `String.prototype.split(sep)`; always returns at least one piece). -/
def splitOnChar (sep : Char) : List Char → List (List Char)
  | [] => [[]]
  | c :: rest =>
    if c == sep then [] :: splitOnChar sep rest
    else
      match splitOnChar sep rest with
      | l :: ls => (c :: l) :: ls
      | [] => [[c]]

/-- Join pieces with a separator character (inverse direction of `splitOnChar`;
    models `Array.prototype.join` over single-character separators). -/
def joinWithChar (sep : Char) : List (List Char) → List Char
  | [] => []
  | [l] => l
  | l :: ls => l ++ sep :: joinWithChar sep ls

/-- Fuelled worker of `splitWs`; every step consumes at least one character,
    so the wrapper's fuel never runs out (fuel keeps the recursion structural
    and hence kernel-computable). -/
def splitWsF : Nat → List Char → List (List Char)
  | 0, _ => [[]]
  | _ + 1, [] => [[]]
  | fuel + 1, c :: rest =>
    if jsSpace c then [] :: splitWsF fuel (rest.dropWhile jsSpace)
    else
      match splitWsF fuel rest with
      | l :: ls => (c :: l) :: ls
      | [] => [[c]]

/-- Models `str.split` at the regex `\s+`: pieces between maximal whitespace
    runs, keeping the empty leading/trailing pieces JS produces. -/
def splitWs (s : List Char) : List (List Char) := splitWsF s.length s

/-- Left trim of JS whitespace. -/
def jsTrimLeft (s : List Char) : List Char := s.dropWhile jsSpace

/-- Right trim of JS whitespace. -/
def jsTrimRight (s : List Char) : List Char := (s.reverse.dropWhile jsSpace).reverse

/-- Models `String.prototype.trim`. -/
def jsTrim (s : List Char) : List Char := jsTrimRight (jsTrimLeft s)

/-- ASCII lower-casing of a character list (models `String.prototype.toLowerCase`
    on the ASCII inputs the scanner deals with). -/
def lowerList (s : List Char) : List Char := s.map Char.toLower

/-- A miniature regular-expression syntax covering exactly the constructs used
    by the regex literals in the repository: a character class, the empty
    string, sequencing, alternation, and greedy star over a character class. -/
inductive RE where
  | cls (p : Char → Bool) : RE
  | eps : RE
  | seq (a b : RE) : RE
  | alt (a b : RE) : RE
  | starCls (p : Char → Bool) : RE

/-- Consumable lengths of a greedy class star, longest first (the order JS
    backtracking tries them in). -/
def starLens (p : Char → Bool) : List Char → List Nat
  | [] => [0]
  | c :: rest =>
    if p c then ((starLens p rest).map (· + 1)) ++ [0] else [0]

/-- All lengths of prefixes of `s` matched by the regex, in JS backtracking
    priority order (greedy stars longest-first, alternation left-first).
    The head of the list is the match JS commits to. -/
def RE.matchLens : RE → List Char → List Nat
  | .cls _, [] => []
  | .cls p, c :: _ => if p c then [1] else []
  | .eps, _ => [0]
  | .seq a b, s => (a.matchLens s).flatMap fun n => (b.matchLens (s.drop n)).map (n + ·)
  | .alt a b, s => a.matchLens s ++ b.matchLens s
  | .starCls p, s => starLens p s

/-- Does the regex match somewhere in `s`?  Models `RegExp.prototype.test`
    for regexes without the `g` flag (stateless). -/
def RE.testList (r : RE) : List Char → Bool
  | [] => !(r.matchLens []).isEmpty
  | c :: rest => !(r.matchLens (c :: rest)).isEmpty || r.testList rest

/-- Fuelled worker of `jsMatchAll`; every recursive step consumes at least
    one character, so the wrapper's fuel never runs out. -/
def jsMatchAllGoF (r : RE) : Nat → List Char → Nat → List (Nat × Nat)
  | 0, _, _ => []
  | _ + 1, [], i =>
    match (r.matchLens []).head? with
    | some _ => [(i, 0)]
    | none => []
  | fuel + 1, c :: rest, i =>
    match (r.matchLens (c :: rest)).head? with
    | some 0 => (i, 0) :: jsMatchAllGoF r fuel rest (i + 1)
    | some (n + 1) => (i, n + 1) :: jsMatchAllGoF r fuel ((c :: rest).drop (n + 1)) (i + n + 1)
    | none => jsMatchAllGoF r fuel rest (i + 1)

/-- All matches of the regex over `s` as `(startIndex, length)` pairs, in the
    order `String.prototype.matchAll` yields them: leftmost first,
    non-overlapping, resuming after each match (advancing by one on a
    zero-length match, as `AdvanceStringIndex` does). -/
def jsMatchAll (r : RE) (s : List Char) : List (Nat × Nat) := jsMatchAllGoF r (s.length + 1) s 0

/-- The text of a match given by `(start, len)`. -/
def matchText (s : List Char) (m : Nat × Nat) : List Char := (s.drop m.1).take m.2

/-- Zero-based line index of a character position - the number of newline
    characters strictly before it (the source computes
    `content.substring(0, match.index).split('\n').length - 1`). -/
def lineIndexOf (s : List Char) (idx : Nat) : Nat := (s.take idx).count '\n'

/-- The first match of the regex at or after position `start`, as used by
    a stateful `RegExp.prototype.test` on a `g`-flagged regex. -/
def firstMatchFrom (r : RE) (s : List Char) (start : Nat) : Option (Nat × Nat) :=
  (jsMatchAll r (s.drop start)).head?.map fun m => (start + m.1, m.2)

/-- Models `re.test(s)` for a `g`-flagged regex with current `lastIndex` `li`:
    returns the boolean outcome and the updated `lastIndex`. -/
def jsTestG (r : RE) (s : List Char) (li : Nat) : Bool × Nat :=
  if li > s.length then (false, 0)
  else
    match firstMatchFrom r s li with
    | some m => (true, m.1 + m.2)
    | none => (false, 0)

/-- Single literal character. -/
def REc (c : Char) : RE := .cls (· == c)

/-- Single character, case-insensitively (JS `i` flag; ASCII folding). -/
def REci (c : Char) : RE := .cls (fun x => x.toLower == c.toLower)

/-- Literal string. -/
def REstr (s : String) : RE := s.toList.foldr (fun c r => .seq (REc c) r) .eps

/-- Literal string, case-insensitively. -/
def REstrCI (s : String) : RE := s.toList.foldr (fun c r => .seq (REci c) r) .eps

/-- `r1 r2 ... rn` sequencing of a list. -/
def REseqAll : List RE → RE
  | [] => .eps
  | [r] => r
  | r :: rs => .seq r (REseqAll rs)

/-- Left-to-right alternation of a non-empty list (JS `a|b|c`). -/
def REaltAll : List RE → RE
  | [] => .cls (fun _ => false)
  | [r] => r
  | r :: rs => .alt r (REaltAll rs)

/-- `\s+`. -/
def REwsPlus : RE := .seq (.cls jsSpace) (.starCls jsSpace)

/-- `\s*`. -/
def REwsStar : RE := .starCls jsSpace

/-- `r` repeated exactly `n` times (JS `{n}`). -/
def RErep (r : RE) : Nat → RE
  | 0 => .eps
  | n + 1 => .seq r (RErep r n)

/-- Greedy `r?`. -/
def REopt (r : RE) : RE := .alt r .eps

/-- `[A-Z_]` under the `i` flag: ASCII letters and underscore. -/
def upperOrUnderscoreCI (c : Char) : Bool := c.isAlpha || c == '_'

/-- `['"]`: a single or double quote. -/
def quoteCls : RE := .cls (fun c => c == '\x27' || c == '"')

/-- `[-_]`. -/
def dashUnd : RE := .cls (fun c => c == '-' || c == '_')

/-- Hex digit under the `i` flag (`[0-9a-f]` with `/i`). -/
def hexDigitCI (c : Char) : Bool :=
  c.isDigit || ('a' ≤ c && c ≤ 'f') || ('A' ≤ c && c ≤ 'F')

/-- `\w`. -/
def wordChar (c : Char) : Bool := c.isAlphanum || c == '_'

/-- `[A-Z_]` (case-sensitive). -/
def envStartChar (c : Char) : Bool := ('A' ≤ c && c ≤ 'Z') || c == '_'

/-- `[A-Z0-9_]` (case-sensitive). -/
def envChar (c : Char) : Bool := ('A' ≤ c && c ≤ 'Z') || c.isDigit || c == '_'

/-- The six `SECRET_EXPOSURE_PATTERNS` of validate-skill.ts (lines 38-45),
    each paired with its message. -/
def SECRET_EXPOSURE_PATTERNS : List (RE × String) :=
  [ (REseqAll [REstrCI "echo", REwsPlus, REc '$', .starCls upperOrUnderscoreCI, REstrCI "KEY"],
      "Echo command exposes secret KEY variable"),
    (REseqAll [REstrCI "echo", REwsPlus, REc '$', .starCls upperOrUnderscoreCI, REstrCI "SECRET"],
      "Echo command exposes SECRET variable"),
    (REseqAll [REstrCI "echo", REwsPlus, REc '$', .starCls upperOrUnderscoreCI, REstrCI "TOKEN"],
      "Echo command exposes TOKEN variable"),
    (REseqAll [REstr "cat", REwsPlus, REc '.', REstr "env"],
      "cat .env exposes all secrets"),
    (REseqAll [REstrCI "printenv", REwsStar, REc '|', REwsStar, REstrCI "grep"],
      "printenv | grep may expose secrets"),
    (REseqAll [REstrCI "config", REwsPlus, REstrCI "show"],
      "config show commands often expose secrets") ]

/-- The three `DOCUMENTATION_CONTEXT_PATTERNS` (lines 48-52). -/
def DOCUMENTATION_CONTEXT_PATTERNS : List RE :=
  [ REaltAll [REc '❌', REstrCI "NEVER", REstrCI ("uns" ++ "afe"),
      REstrCI ("don" ++ "\x27t"), REstrCI "bad", REstrCI "wrong"],
    REaltAll [REstrCI "# Example:", REstrCI "<!-- Example"],
    REaltAll [REstrCI "Usage:", REstrCI "Example:"] ]

/-- The `PLACEHOLDER_KEY_PATTERNS` (lines 55-70). -/
def PLACEHOLDER_KEY_PATTERNS : List RE :=
  [ REstrCI "lin_api_xxx",
    REstrCI "lin_api_...",
    REstrCI "lin_api_your_key",
    REstrCI "lin_api_here",
    REstrCI "sk-xxx",
    REstrCI "ghp_xxx",
    REseqAll [REstrCI "your", REopt dashUnd, REstrCI "key"],
    REseqAll [REstrCI "your", REopt dashUnd, REstrCI "api", REopt dashUnd, REstrCI "key"],
    REstrCI "<your-",
    REseqAll [REstrCI "startsWith", REwsStar, REc '(', quoteCls, REstrCI "lin_api_"],
    REseqAll [REstrCI "startsWith", REwsStar, REc '(', quoteCls, REstrCI "sk-"],
    REseqAll [REstrCI "startsWith", REwsStar, REc '(', quoteCls, REstrCI "ghp_"],
    REseqAll [REstrCI "console", REc '.', REaltAll [REstrCI "log", REstrCI "error", REstrCI "warn"],
      REwsStar, REc '('],
    REseqAll [REstrCI "throw", REwsPlus, REstrCI "new", REwsPlus, REstrCI "Error"] ]

/-- The UUID-shaped pattern of `PROJECT_SPECIFIC_PATTERNS`. -/
def uuidRE : RE :=
  REseqAll [RErep (.cls hexDigitCI) 8, REc '-', RErep (.cls hexDigitCI) 4, REc '-',
    RErep (.cls hexDigitCI) 4, REc '-', RErep (.cls hexDigitCI) 4, REc '-',
    RErep (.cls hexDigitCI) 12]

/-- The five `PROJECT_SPECIFIC_PATTERNS` (lines 23-29). -/
def PROJECT_SPECIFIC_PATTERNS : List RE :=
  [ REstrCI "SKILLSMITH",
    REstr "skillsmith",
    uuidRE,
    REaltAll [REstrCI "Acme", REstrCI "MyCompany", REstrCI "OurTeam"],
    REseqAll [REstrCI "internal", REc '.', REaltAll [REstrCI "company", REstrCI "corp", REstrCI "org"],
      REc '.'] ]

/-- The two `WARNING_PATTERNS` (lines 32-35), with their messages. -/
def WARNING_PATTERNS : List (RE × String) :=
  [ (REstrCI "hardcoded", "Contains \"hardcoded\" - may indicate config issues"),
    (REaltAll [REstr "TODO", REstr "FIXME", REstr "HACK"], "Contains TODO/FIXME/HACK comments") ]

/-- The per-file hardcoded-key pattern `/['"]lin_api_|['"]sk-|['"]ghp_|['"]npm_/g`
    (line 212). -/
def keyPattern : RE :=
  REaltAll [REseqAll [quoteCls, REstr "lin_api_"], REseqAll [quoteCls, REstr "sk-"],
    REseqAll [quoteCls, REstr "ghp_"], REseqAll [quoteCls, REstr "npm_"]]

/-- `/function\s+\w*(Skillsmith|MyProject|Acme)\w*/` (line 224). -/
def functionNameRE : RE :=
  REseqAll [REstr "function", REwsPlus, .starCls wordChar,
    REaltAll [REstr "Skillsmith", REstr "MyProject", REstr "Acme"], .starCls wordChar]

/-- `/process\.env\.([A-Z_][A-Z0-9_]*)/g` (line 263). -/
def processEnvRE : RE := REseqAll [REstr "process.env.", .cls envStartChar, .starCls envChar]

/-- `/KEY|SECRET|TOKEN|PASSWORD|CREDENTIAL|AUTH/i` (line 269). -/
def sensitiveRE : RE :=
  REaltAll [REstrCI "KEY", REstrCI "SECRET", REstrCI "TOKEN", REstrCI "PASSWORD",
    REstrCI "CREDENTIAL", REstrCI "AUTH"]

/-- The backtick character. -/
def backtickChar : Char := Char.ofNat 96

/-- One alternative of the referenced-file regex (line 128). -/
def refPiece (dirLit : String) : RE :=
  REseqAll [REc backtickChar, REstr dirLit, .cls (fun c => !(c == backtickChar)),
    .starCls (fun c => !(c == backtickChar)), REc backtickChar]

/-- ``/`references\/[^`]+`|`scripts\/[^`]+`|`examples\/[^`]+`/g`` (line 128). -/
def referencedFileRE : RE :=
  REaltAll [refPiece "references/", refPiece "scripts/", refPiece "examples/"]

/-- Models `isDocumentationContext` (lines 72-80): joins the window of lines
    `lineIndex - 5` through `lineIndex + 4` (the JS `slice` end is exclusive)
    and tests every documentation-context pattern against it. -/
def isDocumentationContext (content : List Char) (lineIndex : Nat) : Bool :=
  let lines := splitOnChar '\n' content
  let start := lineIndex - 5
  let stop := min lines.length (lineIndex + 5)
  let contextLines := joinWithChar '\n' ((lines.drop start).take (stop - start))
  DOCUMENTATION_CONTEXT_PATTERNS.any fun p => p.testList contextLines

/-- Models `isPlaceholderKey` (lines 82-84). -/
def isPlaceholderKey (line : List Char) : Bool :=
  PLACEHOLDER_KEY_PATTERNS.any fun p => p.testList line

/-- The Error finding (at most one, because of the `break`) that a single
    secret-exposure pattern contributes for a single file: the first match
    not suppressed by the documentation-context heuristic (lines 193-207). -/
def secretErrorForPattern (relPath : String) (content : List Char) (pm : RE × String) :
    List String :=
  match (jsMatchAll pm.1 content).find?
      (fun m => !isDocumentationContext content (lineIndexOf content m.1)) with
  | some _ => [relPath ++ ": " ++ pm.2 ++ " - Use Varlock instead!"]
  | none => []

/-- All secret-exposure Error findings of one file, in pattern order. -/
def secretErrorsFor (relPath : String) (content : List Char) : List String :=
  SECRET_EXPOSURE_PATTERNS.flatMap (secretErrorForPattern relPath content)

/-- Whether one hardcoded-key match is reported: the source looks up the
    first line of the file containing the matched text (`lines.find`, line
    215) and flags the match when that line exists and is not
    placeholder-shaped. -/
def keyMatchFlagged (lines : List (List Char)) (content : List Char) (m : Nat × Nat) : Bool :=
  match lines.find? (fun l => containsSub (matchText content m) l) with
  | some l => !isPlaceholderKey l
  | none => false

/-- The hardcoded-API-key Error findings of one code file (lines 209-221);
    the `break` caps them at one per file. -/
def hardcodedKeyErrors (relPath : String) (content : List Char) : List String :=
  let lines := splitOnChar '\n' content
  match (jsMatchAll keyPattern content).find? (keyMatchFlagged lines content) with
  | some _ => [relPath ++ ": Contains hardcoded API key"]
  | none => []

/-- Project-specific-content warnings of one file (lines 173-181). -/
def projectWarningsFor (relPath : String) (content : List Char) : List String :=
  PROJECT_SPECIFIC_PATTERNS.filterMap fun p =>
    match jsMatchAll p content with
    | [] => none
    | m :: _ =>
      if containsSub "// Example:".toList content ||
         containsSub "<!-- Example".toList content then none
      else
        some (relPath ++ ": Contains potentially project-specific content: \"" ++
          String.mk (matchText content m) ++ "\"")

/-- Warnings from the two stateful `WARNING_PATTERNS` probes (lines 184-188);
    threads the `lastIndex` of each `g`-flagged regex. -/
def runWarningPatterns (relPath : String) (content : List Char) :
    List (RE × String) → List Nat → List String × List Nat
  | [], _ => ([], [])
  | (r, msg) :: ps, lis =>
    let (b, li') := jsTestG r content (lis.headD 0)
    let (ws, lis') := runWarningPatterns relPath content ps lis.tail
    ((if b then [relPath ++ ": " ++ msg] else []) ++ ws, li' :: lis')

/-- Function-name warning for code files (lines 224-226). -/
def functionNameWarnings (relPath : String) (content : List Char) : List String :=
  if functionNameRE.testList content then
    [relPath ++ ": Function name contains project-specific term"]
  else []

/-- Does the path name a `.ts`/`.js` file (line 210)? -/
def isCodeFileName (name : String) : Bool := strEndsWith name ".ts" || strEndsWith name ".js"

/-- `checkGeneralization`'s findings for one file: errors, warnings, and the
    updated `lastIndex` state of the module-level warning regexes. -/
def checkGenFile (lis : List Nat) (relPath : String) (content : List Char) :
    List String × List String × List Nat :=
  let (warnWs, lis') := runWarningPatterns relPath content WARNING_PATTERNS lis
  let ws0 := projectWarningsFor relPath content ++ warnWs
  let es0 := secretErrorsFor relPath content
  if isCodeFileName relPath then
    (es0 ++ hardcodedKeyErrors relPath content, ws0 ++ functionNameWarnings relPath content, lis')
  else
    (es0, ws0, lis')

/-- A directory tree: the file-system fragment the validator walks. -/
inductive FsEntry where
  | file (name content : String) : FsEntry
  | dir (name : String) (entries : List FsEntry) : FsEntry

mutual
/-- Recursive directory walk collecting `(relativePath, content)` pairs for
    files whose name passes `keep`, in `readdirSync` order with directory
    contents expanded in place.  The two `getAllFiles` helpers of
    validate-skill.ts are identical apart from the extension filter, so they
    are both instances of this one definition. -/
def getAllFilesWith (keep : String → Bool) : List FsEntry → List (String × String)
  | [] => []
  | e :: rest => getAllFilesEntry keep e ++ getAllFilesWith keep rest

/-- One entry of the walk: a kept file contributes itself, a directory its
    recursively collected files with the directory name prefixed. -/
def getAllFilesEntry (keep : String → Bool) : FsEntry → List (String × String)
  | .file n c => if keep n then [(n, c)] else []
  | .dir d es => (getAllFilesWith keep es).map (fun pc => (d ++ "/" ++ pc.1, pc.2))
end

/-- Extension filter of `checkGeneralization.getAllFiles` (line 159). -/
def isGenExt (n : String) : Bool := strEndsWith n ".ts" || strEndsWith n ".js" || strEndsWith n ".md"

/-- Extension filter of `checkEnvironmentDocumentation.getAllFiles` (line 249). -/
def isEnvExt (n : String) : Bool := strEndsWith n ".ts" || strEndsWith n ".js"

/-- A validation result.  The source's `ValidationResult.passed` field always
    mirrors emptiness of the error list and `main` recomputes overall success
    from the combined error lists, so `passed` is not carried here. -/
structure VResult where
  errors : List String
  warnings : List String
deriving DecidableEq, Repr

/-- Folds `checkGenFile` over the collected files, threading regex state. -/
def checkGenGo : List Nat → List (String × String) → List String × List String
  | _, [] => ([], [])
  | lis, (p, c) :: rest =>
    let (es, ws, lis') := checkGenFile lis p c.toList
    let (es', ws') := checkGenGo lis' rest
    (es ++ es', ws ++ ws')

/-- Models `checkGeneralization` (lines 147-231) over a directory tree. -/
def checkGeneralization (tree : List FsEntry) : VResult :=
  let (es, ws) := checkGenGo [0, 0] (getAllFilesWith isGenExt tree)
  ⟨es, ws⟩

/-- Root-level file lookup (models `existsSync`+`readFileSync` on
    `path.join(skillPath, name)` for the files the validator reads). -/
def findRootFile : List FsEntry → String → Option String
  | [], _ => none
  | .file n c :: rest, target => if n == target then some c else findRootFile rest target
  | .dir _ _ :: rest, target => findRootFile rest target

/-- Models the front-matter regex `^---\n([\s\S]*?)\n---` (with `/` delimiters; line 107 and
    generate-subagent line 46): the content must start with `---\n` and the
    lazy body captures up to the earliest following `\n---`. -/
def parseFrontmatter (s : List Char) : Option (List Char) :=
  if isPrefixOfB "---\n".toList s then
    match findSubIdx "\n---".toList (s.drop 4) with
    | some j => some ((s.drop 4).take j)
    | none => none
  else none

/-- Models `content.replace` of the lazy pattern `^---[\s\S]*?---` with the empty string (line 138). -/
def stripFrontmatter (s : List Char) : List Char :=
  if isPrefixOfB "---".toList s then
    match findSubIdx "---".toList (s.drop 3) with
    | some j => s.drop (3 + j + 3)
    | none => s
  else s

/-- Does the root entry list contain an entry (file or directory) with the
    given name? -/
def hasEntryNamed : List FsEntry → String → Bool
  | [], _ => false
  | .file n _ :: es, seg => n == seg || hasEntryNamed es seg
  | .dir n _ :: es, seg => n == seg || hasEntryNamed es seg

mutual
/-- Walk of a relative path through the tree (models `fs.existsSync` of a
    joined path). -/
def pathExistsSegs : List FsEntry → List String → Bool
  | _, [] => false
  | entries, [seg] => hasEntryNamed entries seg
  | entries, seg :: rest => pathExistsIn entries seg rest

/-- Helper of `pathExistsSegs`: descend into a directory entry named `seg`. -/
def pathExistsIn : List FsEntry → String → List String → Bool
  | [], _, _ => false
  | .file _ _ :: es, seg, rest => pathExistsIn es seg rest
  | .dir n cs :: es, seg, rest =>
    (n == seg && pathExistsSegs cs rest) || pathExistsIn es seg rest
end

/-- `fs.existsSync(path.join(skillPath, p))` over the tree model. -/
def pathExists (tree : List FsEntry) (p : String) : Bool :=
  pathExistsSegs tree ((splitOnChar '/' p.toList).map String.mk)

/-- Models `validateSkillStructure` (lines 86-145). -/
def validateSkillStructure (tree : List FsEntry) : VResult :=
  match findRootFile tree "SKILL.md" with
  | none => ⟨["Missing required SKILL.md file"], []⟩
  | some content =>
    let cl := content.toList
    let e1 := if !isPrefixOfB "---".toList cl then ["SKILL.md missing YAML frontmatter"] else []
    let (e2, w1) :=
      match parseFrontmatter cl with
      | some fm =>
        let eName :=
          if !containsSub "name:".toList fm then
            ["Frontmatter missing required \"name\" field"] else []
        let eDesc :=
          if !containsSub "description:".toList fm then
            ["Frontmatter missing required \"description\" field"] else []
        let wDesc :=
          if containsSub "description:".toList fm &&
             !containsSub "This skill should be used when".toList fm then
            ["Description should start with \"This skill should be used when...\""]
          else []
        (eName ++ eDesc, wDesc)
      | none => ([], [])
    let w2 := (jsMatchAll referencedFileRE cl).filterMap fun m =>
      let fp := String.mk ((matchText cl m).filter (fun c => !(c == backtickChar)))
      if !pathExists tree fp then some ("Referenced file does not exist: " ++ fp) else none
    let w3 :=
      let wc := (splitWs (stripFrontmatter cl)).length
      if wc > 3000 then
        ["SKILL.md body is " ++ toString wc ++
         " words (recommended: <2000). Consider moving content to references/"]
      else []
    ⟨e1 ++ e2, w1 ++ w2 ++ w3⟩

/-- Append preserving first insertion, modelling JS `Set` insertion order. -/
def insertOnce (l : List String) (x : String) : List String :=
  if l.contains x then l else l ++ [x]

/-- `process.env` variable names referenced in one file, in match order. -/
def envVarsInFile (content : List Char) : List String :=
  (jsMatchAll processEnvRE content).map fun m => String.mk ((matchText content m).drop 12)

/-- Models `checkEnvironmentDocumentation` (lines 233-308); it only ever
    produces warnings. -/
def checkEnvironmentDocumentation (tree : List FsEntry) : VResult :=
  match findRootFile tree "SKILL.md" with
  | none => ⟨[], []⟩
  | some content =>
    let files := getAllFilesWith isEnvExt tree
    let envVars := files.foldl (fun acc pc => (envVarsInFile pc.2.toList).foldl insertOnce acc) []
    let sensitiveVars := envVars.filter (fun v => sensitiveRE.testList v.toList)
    let w1 := envVars.filterMap fun v =>
      if !strIncludes content v then
        some ("Environment variable " ++ v ++ " used but not documented in SKILL.md")
      else none
    let w2 :=
      if !sensitiveVars.isEmpty then
        let hasEnvSchema := (findRootFile tree ".env.schema").isSome
        let mentionsVarlock := containsSub "varlock".toList (lowerList content.toList)
        let wa :=
          if !hasEnvSchema && !mentionsVarlock then
            ["Skill uses sensitive variables (" ++ String.intercalate ", " sensitiveVars ++
             ") but does not reference Varlock. Consider adding .env.schema and Varlock documentation."]
          else []
        let wb :=
          match findRootFile tree ".env.schema" with
          | some schemaContent =>
            sensitiveVars.filterMap fun v =>
              if strIncludes schemaContent v && !strIncludes schemaContent "@sensitive" then
                some (".env.schema defines " ++ v ++ " but may be missing @sensitive annotation")
              else none
          | none => []
        wa ++ wb
      else []
    ⟨[], w1 ++ w2⟩

/-- The combined error list of `main` (lines 336-340). -/
def allErrors (tree : List FsEntry) : List String :=
  (validateSkillStructure tree).errors ++ (checkGeneralization tree).errors ++
    (checkEnvironmentDocumentation tree).errors

/-- The combined warning list of `main` (lines 342-346). -/
def allWarnings (tree : List FsEntry) : List String :=
  (validateSkillStructure tree).warnings ++ (checkGeneralization tree).warnings ++
    (checkEnvironmentDocumentation tree).warnings

/-- The `process.exit` code of `main` for an existing input path (lines
    361-365): 0 when no Error finding exists, 1 otherwise. -/
def validationExitCode (tree : List FsEntry) : Nat :=
  if (allErrors tree).isEmpty then 0 else 1

/-- The `console.log` lines of `main` for an existing input path, one list
    entry per call (lines 328-363). -/
def mainOutput (skillName : String) (tree : List FsEntry) : List String :=
  let es := allErrors tree
  let ws := allWarnings tree
  ["\n=== Validating Skill: " ++ skillName ++ " ===\n"] ++
  (if !es.isEmpty then "❌ ERRORS:" :: es.map (fun e => "  - " ++ e) ++ [""] else []) ++
  (if !ws.isEmpty then "⚠️  WARNINGS:" :: ws.map (fun w => "  - " ++ w) ++ [""] else []) ++
  ["\n=== Result: " ++ (if es.isEmpty then "✅ PASSED" else "❌ FAILED") ++ " ===",
   "Errors: " ++ toString es.length ++ ", Warnings: " ++ toString ws.length]

/-- Remainder of the list after the first occurrence of `when`: the position
    the leftmost match of the `g`-flagged trigger regex `when.*?"([^"]+)"`
    continues from once its literal head is consumed. -/
def dropAfterWhen : List Char → Option (List Char)
  | [] => none
  | c :: rest =>
    if isPrefixOfB "when".toList (c :: rest) then some (rest.drop 3)
    else dropAfterWhen rest

/-- Lazy search for the first complete `"([^"]+)"` group: scan for a double
    quote followed by a non-empty quote-free run closed by another quote,
    returning the captured run and the remainder after the closing quote —
    the continuation the lazy `.*?` of the trigger regex commits to. -/
def findQuoted : List Char → Option (List Char × List Char)
  | [] => none
  | c :: rest =>
    if c == '"' then
      match rest.dropWhile (fun x => !(x == '"')) with
      | [] => none
      | _ :: rest3 =>
        let run := rest.takeWhile (fun x => !(x == '"'))
        if run.isEmpty then findQuoted rest else some (run, rest3)
    else findQuoted rest

theorem dropAfterWhen_length_lt : ∀ s r, dropAfterWhen s = some r → r.length < s.length := by
  intro s
  induction s with
  | nil => intro r h; simp [dropAfterWhen] at h
  | cons c rest ih =>
    intro r h
    simp only [dropAfterWhen] at h
    split at h
    · cases h
      have := List.length_drop 3 rest
      simp [List.length_drop]
      omega
    · have := ih r h
      simp
      omega

theorem findQuoted_length_lt : ∀ s run r, findQuoted s = some (run, r) → r.length < s.length := by
  intro s
  induction s with
  | nil => intro run r h; simp [findQuoted] at h
  | cons c rest ih =>
    intro run r h
    simp only [findQuoted] at h
    split at h
    · have hdw := (List.dropWhile_suffix (l := rest) (p := fun x => !(x == '"'))).length_le
      split at h
      · exact absurd h (by simp)
      · next d rest3 heq =>
        split at h
        · have := ih run r h
          simp
          omega
        · cases h
          have : (d :: r).length ≤ rest.length := heq ▸ hdw
          simp at this ⊢
          omega
    · have := ih run r h
      simp
      omega

/-- Fuelled worker of `extractTriggers`; by `dropAfterWhen_length_lt` and
    `findQuoted_length_lt` each round strictly shrinks the input, so the
    wrapper's fuel never runs out. -/
def extractTriggersF : Nat → List Char → List (List Char)
  | 0, _ => []
  | fuel + 1, s =>
    match dropAfterWhen s with
    | none => []
    | some r =>
      match findQuoted r with
      | none => []
      | some (run, r3) => run :: extractTriggersF fuel r3

/-- Trigger-phrase extraction from a description: models
    `description.match` of the `g`-flagged regex `when.*?"([^"]+)"` followed
    by re-extracting the quoted group of each match (generate-subagent
    lines 68-74). -/
def extractTriggers (s : List Char) : List (List Char) :=
  extractTriggersF (s.length + 1) s

/-- The fuel of `extractTriggersF` is irrelevant once it exceeds the input
    length. -/
theorem extractTriggersF_fuel : ∀ f1 f2 s, s.length < f1 → s.length < f2 →
    extractTriggersF f1 s = extractTriggersF f2 s := by
  intro f1
  induction f1 with
  | zero => intro f2 s h1; omega
  | succ f1 ih =>
    intro f2 s h1 h2
    match f2, h2 with
    | f2 + 1, h2 =>
      simp only [extractTriggersF]
      cases hd : dropAfterWhen s with
      | none => rfl
      | some r =>
        simp only []
        cases hq : findQuoted r with
        | none => rfl
        | some p =>
          obtain ⟨run, r3⟩ := p
          have a := dropAfterWhen_length_lt s r hd
          have b := findQuoted_length_lt r run r3 hq
          simp only [hq]
          rw [ih f2 r3 (by omega) (by omega)]

/-- The accumulator of `parseSkillMetadata`'s front-matter line loop. -/
structure ParseState where
  name : List Char
  description : List Char
  triggers : List (List Char)

/-- Does a line match `^name:\s*(.+)$`?  A line contains no newline, so this
    holds exactly when it starts with `name:` and has at least one further
    character; the captured group trims to the same string as the whole tail
    (the characters the greedy `\s*` may give back are whitespace), so the
    model trims the tail directly. -/
def isNameLine (line : List Char) : Bool :=
  isPrefixOfB "name:".toList line && !(line.drop 5).isEmpty

/-- Does a line match `^description:\s*(.+)$`? -/
def isDescLine (line : List Char) : Bool :=
  isPrefixOfB "description:".toList line && !(line.drop 12).isEmpty

/-- One iteration of the front-matter line loop (lines 58-81).  The `version`
    branch captures nothing observable and is omitted, as the source's own
    comment notes. -/
def parseLine (st : ParseState) (line : List Char) : ParseState :=
  let st1 :=
    if isNameLine line then { st with name := jsTrim (line.drop 5) } else st
  if isDescLine line then
    let d := jsTrim (line.drop 12)
    { st1 with description := d, triggers := st1.triggers ++ extractTriggers d }
  else st1

/-- The metadata parsed from a skill document (generate-subagent lines
    23-28); the optional `version` field is never populated by the parser
    and is omitted. -/
structure SkillMetadata where
  name : String
  description : String
  triggers : List String
deriving DecidableEq, Repr

/-- Models `parseSkillMetadata` (lines 45-88). -/
def parseSkillMetadata (content : String) : Except String SkillMetadata :=
  match parseFrontmatter content.toList with
  | none => .error "No YAML frontmatter found in SKILL.md"
  | some fm =>
    let st := (splitOnChar '\n' fm).foldl parseLine ⟨[], [], []⟩
    if st.name.isEmpty then .error "No name found in SKILL.md frontmatter"
    else .ok ⟨String.mk st.name, String.mk st.description, st.triggers.map String.mk⟩

/-- The result record of `analyzeToolRequirements` (lines 30-33). -/
structure ToolAnalysis where
  requiredTools : List String
  reason : String

/-- Models `analyzeToolRequirements` (lines 93-148): keyword-driven tool
    inference over the lower-cased content; list order is the `Set`
    insertion order of the source's branches. -/
def analyzeToolRequirements (content : String) : ToolAnalysis :=
  let cl := lowerList content.toList
  let has := fun (w : String) => containsSub w.toList cl
  ⟨["Read"] ++
    (if has "write" || has "create file" || has "edit" || has "modify" then
      ["Write", "Edit"] else []) ++
    (if has "bash" || has "npm" || has "command" || has "terminal" || has "shell" ||
        has "run " then ["Bash"] else []) ++
    (if has "search" || has "find" || has "grep" || has "glob" then
      ["Grep", "Glob"] else []) ++
    (if has "web" || has "fetch" || has "url" || has "http" then ["WebFetch"] else []),
    "Minimal tool set based on skill content analysis"⟩

/-- Expansion of a replacement string at one match site, per the JS
    `GetSubstitution` algorithm: dollar-dollar, dollar-ampersand,
    dollar-backtick (text before the match) and dollar-quote (text after)
    are special; `$n` stays literal because the placeholder patterns have no
    capture groups. -/
def expandRepl (matched before after : List Char) : List Char → List Char
  | [] => []
  | c :: rest =>
    if c == '$' then
      match rest with
      | [] => [c]
      | d :: rest2 =>
        if d == '$' then '$' :: expandRepl matched before after rest2
        else if d == '&' then matched ++ expandRepl matched before after rest2
        else if d == backtickChar then before ++ expandRepl matched before after rest2
        else if d == Char.ofNat 39 then after ++ expandRepl matched before after rest2
        else c :: expandRepl matched before after (d :: rest2)
    else c :: expandRepl matched before after rest

/-- Fuelled scanner of `jsReplaceAll`: replaces every occurrence of the
    (non-empty) literal `needle`, resuming after each replacement as a
    `g`-flagged regex does; every step consumes at least one character. -/
def jsReplaceAllGoF (needle repl orig : List Char) : Nat → List Char → Nat → List Char
  | 0, s, _ => s
  | _ + 1, [], _ => []
  | fuel + 1, c :: rest, pos =>
    if isPrefixOfB needle (c :: rest) && !needle.isEmpty then
      expandRepl needle (orig.take pos) (orig.drop (pos + needle.length)) repl ++
        jsReplaceAllGoF needle repl orig fuel ((c :: rest).drop needle.length)
          (pos + needle.length)
    else c :: jsReplaceAllGoF needle repl orig fuel rest (pos + 1)

/-- Models `s.replace(re, repl)` for a `g`-flagged regex that matches the
    literal string `needle` (all placeholder regexes are literal). -/
def jsReplaceAll (needle repl s : List Char) : List Char :=
  jsReplaceAllGoF needle repl s s.length s 0

/-- The `triggersStr` of `generateSubagentContent` (lines 160-163). -/
def triggersStrOf (m : SkillMetadata) : String :=
  if m.triggers.isEmpty then "delegated tasks for this skill"
  else String.intercalate ", " (m.triggers.map (fun t => "\"" ++ t ++ "\""))

/-- Models `generateSubagentContent` (lines 153-170), with the template
    file's content passed in for the `readFileSync`. -/
def generateSubagentContent (metadata : SkillMetadata) (tools : List String)
    (template : String) : String :=
  let t1 := jsReplaceAll "\x7b\x7bname\x7d\x7d".toList metadata.name.toList template.toList
  let t2 := jsReplaceAll "\x7b\x7bdescription\x7d\x7d".toList metadata.description.toList t1
  let t3 := jsReplaceAll "\x7b\x7btriggers\x7d\x7d".toList (triggersStrOf metadata).toList t2
  let t4 := jsReplaceAll "\x7b\x7btools\x7d\x7d".toList (String.intercalate ", " tools).toList t3
  String.mk t4

/-- Models `generateClaudeMdSnippet` (lines 175-194). -/
def generateClaudeMdSnippet (m : SkillMetadata) : String :=
  let triggersStr :=
    if m.triggers.isEmpty then "skill-specific tasks"
    else String.intercalate "\", \"" m.triggers
  "### " ++ m.name ++ " Subagent Delegation\n\n" ++
  "When tasks match " ++ m.name ++ " triggers, delegate to the `" ++ m.name ++
  "-specialist` subagent for context isolation and token savings.\n\n" ++
  "**Triggers:** \"" ++ triggersStr ++ "\"\n\n" ++
  "**Delegation Pattern:**\n```\nTask(\x7b\n  description: \"[task description]\",\n  prompt: \"[detailed instructions]\",\n  subagent_type: \"" ++
  m.name ++ "-specialist\"\n\x7d)\n```\n"

/-- File-system snapshot for the generator: file contents by path, plus the
    set of existing directories. -/
structure Fs where
  files : List (String × String)
  dirs : List String

/-- `fs.existsSync` for a file path. -/
def fsFileExists (fs : Fs) (p : String) : Bool := fs.files.any (fun f => f.1 == p)

/-- `fs.readFileSync`; all reads in `generateSubagent` are guarded by
    existence checks, so the default is never observable. -/
def fsRead (fs : Fs) (p : String) : String :=
  ((fs.files.find? (fun f => f.1 == p)).map Prod.snd).getD ""

/-- `fs.existsSync` for a directory path. -/
def fsDirExists (fs : Fs) (p : String) : Bool := fs.dirs.contains p

/-- `path.join` on the POSIX-style paths used here. -/
def pathJoin (a b : String) : String := a ++ "/" ++ b

/-- Models `os.homedir()`; the concrete value is irrelevant to the claims. -/
def homedirStr : String := "/home/user"

/-- The fixed subagent-template path (lines 233-240). -/
def templatePathStr : String :=
  homedirStr ++ "/.claude/skills/skill-builder/templates/subagent-template.md"

/-- The options record of `generateSubagent` (lines 201-207); `model` is
    accepted by the CLI but never read. -/
structure GenOptions where
  output : Option String
  tools : Option String
  model : Option String
  skipClaudeMd : Bool
  dryRun : Bool

/-- The returned `GenerationResult` (lines 35-40). -/
structure GenerationResult where
  subagentPath : String
  claudeMdSnippet : String
  metadata : SkillMetadata
  tools : List String
deriving DecidableEq, Repr

/-- A file-system mutation performed by the generator. -/
inductive FsEffect where
  | mkdirRec (path : String) : FsEffect
  | writeFile (path content : String) : FsEffect
deriving DecidableEq, Repr

/-- Models `generateSubagent` (lines 199-289): the returned result together
    with the list of file-system mutations performed.  `path.resolve` is
    modelled as the identity on the model's already-canonical paths;
    `console.log` previewing mutates nothing and is not recorded. -/
def generateSubagent (fs : Fs) (skillPath : String) (options : GenOptions) :
    Except String (GenerationResult × List FsEffect) :=
  let resolvedPath := skillPath
  let skillMdPath :=
    if fsFileExists fs (pathJoin resolvedPath "SKILL.md") then pathJoin resolvedPath "SKILL.md"
    else resolvedPath
  if !fsFileExists fs skillMdPath then .error ("SKILL.md not found at " ++ skillMdPath)
  else
    let content := fsRead fs skillMdPath
    match parseSkillMetadata content with
    | .error e => .error e
    | .ok metadata =>
      let tools :=
        match options.tools with
        | some t => (splitOnChar ',' t.toList).map (fun x => String.mk (jsTrim x))
        | none => (analyzeToolRequirements content).requiredTools
      if !fsFileExists fs templatePathStr then
        .error ("Subagent template not found at " ++ templatePathStr)
      else
        let template := fsRead fs templatePathStr
        let subagentContent := generateSubagentContent metadata tools template
        let outputDir := options.output.getD (homedirStr ++ "/.claude/agents")
        let subagentPath := pathJoin outputDir (metadata.name ++ "-specialist.md")
        let claudeMdSnippet := generateClaudeMdSnippet metadata
        let effects :=
          if options.dryRun then []
          else
            (if fsDirExists fs outputDir then [] else [FsEffect.mkdirRec outputDir]) ++
              [FsEffect.writeFile subagentPath subagentContent]
        .ok (⟨subagentPath, claudeMdSnippet, metadata, tools⟩, effects)

/-- Exit code of the generator CLI (lines 328-333): 0 on success, 1 when
    `generateSubagent` throws; the error message is printed, no artifact is
    produced. -/
def generateCliExitCode (fs : Fs) (skillPath : String) (options : GenOptions) : Nat :=
  match generateSubagent fs skillPath options with
  | .ok _ => 0
  | .error _ => 1

/-- Helper for witnesses: the result component of a generator outcome; the
    fallback branch is never hit on the inputs it is used with. -/
def genResultOf (x : Except String (GenerationResult × List FsEffect)) : GenerationResult :=
  match x with
  | .ok (r, _) => r
  | .error _ => ⟨"", "", ⟨"", "", []⟩, []⟩

/-- Helper for witnesses: the effect list of a generator outcome. -/
def genEffectsOf (x : Except String (GenerationResult × List FsEffect)) : List FsEffect :=
  match x with
  | .ok (_, e) => e
  | .error _ => []

/-- C3: for a validation run over an existing input path, the exit code is
    non-zero iff at least one Error-severity finding was produced; a run
    whose findings are all Warnings exits 0, and every Warning is reported
    on stdout as a `  - `-prefixed line. -/
theorem c3_exit_nonzero_iff_errors (skillName : String) (tree : List FsEntry) :
    (validationExitCode tree ≠ 0 ↔ allErrors tree ≠ []) ∧
    (allErrors tree = [] ∧ allWarnings tree ≠ [] → validationExitCode tree = 0) ∧
    (∀ w ∈ allWarnings tree, ("  - " ++ w) ∈ mainOutput skillName tree) := by
  refine ⟨?_, ?_, ?_⟩
  · simp only [validationExitCode]
    split <;> rename_i h <;> simp_all [List.isEmpty_iff]
  · rintro ⟨he, _⟩
    simp [validationExitCode, he]
  · intro w hw
    have hne : (allWarnings tree).isEmpty = false :=
      List.isEmpty_eq_false.mpr (fun h0 => by rw [h0] at hw; cases hw)
    have hmem : ("  - " ++ w) ∈ (allWarnings tree).map (fun x => "  - " ++ x) :=
      List.mem_map_of_mem _ hw
    cases he : (allErrors tree).isEmpty <;>
      simp only [mainOutput, hne, he, Bool.not_false, Bool.not_true, if_true, if_false,
        List.mem_append, List.mem_cons, List.append_assoc] <;> tauto

/-- C3 witness: a concrete tree with one Warning and no Error exits 0, and
    the Warning appears in the output. -/
theorem c3_witness :
    validationExitCode [FsEntry.file "SKILL.md" "---\nname: x\ndescription: y\n---\nbody"] = 0 ∧
    ("  - Description should start with \"This skill should be used when...\"") ∈
      mainOutput "skill" [FsEntry.file "SKILL.md" "---\nname: x\ndescription: y\n---\nbody"] := by
  constructor
  · exact not_ne_iff.mp
      (fun hne =>
        ((c3_exit_nonzero_iff_errors "skill"
          [FsEntry.file "SKILL.md" "---\nname: x\ndescription: y\n---\nbody"]).1.mp hne)
          (by decide))
  · exact (c3_exit_nonzero_iff_errors "skill"
      [FsEntry.file "SKILL.md" "---\nname: x\ndescription: y\n---\nbody"]).2.2 _ (by decide)

/-- If the generalization walk collects nothing, the environment walk (whose
    extension filter is stricter) collects nothing either, and no root-level
    `SKILL.md` file exists (its name passes the `.md` filter). -/
theorem files_nil_aux : ∀ (n : Nat) (l : List FsEntry), sizeOf l ≤ n →
    getAllFilesWith isGenExt l = [] →
    getAllFilesWith isEnvExt l = [] ∧ findRootFile l "SKILL.md" = none := by
  intro n
  induction n with
  | zero =>
    intro l hl
    cases l with
    | nil => intro _; exact ⟨rfl, rfl⟩
    | cons e rest => intro _; exact absurd hl (by simp)
  | succ n ih =>
    intro l hl hgen
    cases l with
    | nil => exact ⟨rfl, rfl⟩
    | cons e rest =>
      rw [getAllFilesWith] at hgen
      have hparts := List.append_eq_nil.mp hgen
      have hrest := ih rest (by simp at hl ⊢; omega) hparts.2
      cases e with
      | file nm c =>
        have hkeep : isGenExt nm = false := by
          by_contra hk
          rw [getAllFilesEntry, if_pos (by revert hk; cases isGenExt nm <;> simp)] at hparts
          exact absurd hparts.1 (by simp)
        have henv : isEnvExt nm = false := by
          revert hkeep
          simp [isGenExt, isEnvExt]
          intro h1 h2 h3
          exact ⟨h1, h2⟩
        have hnm : (nm == "SKILL.md") = false := by
          by_contra hk
          have : nm = "SKILL.md" := by
            revert hk; cases h : (nm == "SKILL.md") <;> simp_all
          rw [this] at hkeep
          exact absurd hkeep (by decide)
        constructor
        · rw [getAllFilesWith, getAllFilesEntry, if_neg (by simp [henv]), List.nil_append]
          exact hrest.1
        · simp only [findRootFile, hnm, Bool.false_eq_true, if_false]
          exact hrest.2
      | dir d es =>
        have hes : getAllFilesWith isGenExt es = [] := by
          have := hparts.1
          rw [getAllFilesEntry] at this
          exact List.map_eq_nil_iff.mp this
        have hesenv := ih es (by simp at hl ⊢; omega) hes
        constructor
        · rw [getAllFilesWith, getAllFilesEntry, hesenv.1, List.map_nil, List.nil_append]
          exact hrest.1
        · rw [findRootFile]
          exact hrest.2

/-- C5 counterexample: validating an empty directory does NOT produce zero
    findings and exit code 0: the structure check reports the
    missing-SKILL.md Error and the run exits 1. -/
theorem c5_counterexample_empty_dir :
    allErrors ([] : List FsEntry) = ["Missing required SKILL.md file"] ∧
    validationExitCode ([] : List FsEntry) = 1 ∧
    ¬(allErrors ([] : List FsEntry) = [] ∧ validationExitCode ([] : List FsEntry) = 0) := by
  refine ⟨by decide, by decide, ?_⟩
  rintro ⟨h, _⟩
  exact absurd h (by decide)

/-- C5 amended: for an existing directory with no matching files (in
    particular an empty one) the generalization and environment checks
    produce no findings, but the validator is not silent: it reports exactly
    the missing-SKILL.md Error, no warnings, and exits 1. -/
theorem c5_amended_no_matching_files (tree : List FsEntry)
    (h : getAllFilesWith isGenExt tree = []) :
    allErrors tree = ["Missing required SKILL.md file"] ∧
    allWarnings tree = [] ∧
    (checkGeneralization tree).errors = [] ∧ (checkGeneralization tree).warnings = [] ∧
    validationExitCode tree = 1 := by
  obtain ⟨henv, hroot⟩ := files_nil_aux (sizeOf tree) tree le_rfl h
  have hgen : checkGeneralization tree = ⟨[], []⟩ := by
    rw [checkGeneralization, h]
    rfl
  have hstruct : validateSkillStructure tree = ⟨["Missing required SKILL.md file"], []⟩ := by
    rw [validateSkillStructure, hroot]
  have henvdoc : checkEnvironmentDocumentation tree = ⟨[], []⟩ := by
    rw [checkEnvironmentDocumentation, hroot]
  refine ⟨?_, ?_, by rw [hgen], by rw [hgen], ?_⟩
  · rw [allErrors, hgen, hstruct, henvdoc]
    rfl
  · rw [allWarnings, hgen, hstruct, henvdoc]
    rfl
  · rw [validationExitCode, allErrors, hgen, hstruct, henvdoc]
    rfl

/-- C5 witness: a non-empty directory containing only non-matching files has
    no matching files, and the amended description of the run holds of it. -/
theorem c5_witness :
    allErrors [FsEntry.file "data.txt" "x", FsEntry.dir "d" [FsEntry.file "notes.txt" "y"]] =
      ["Missing required SKILL.md file"] ∧
    allWarnings [FsEntry.file "data.txt" "x", FsEntry.dir "d" [FsEntry.file "notes.txt" "y"]] = [] ∧
    (checkGeneralization
      [FsEntry.file "data.txt" "x", FsEntry.dir "d" [FsEntry.file "notes.txt" "y"]]).errors = [] ∧
    (checkGeneralization
      [FsEntry.file "data.txt" "x", FsEntry.dir "d" [FsEntry.file "notes.txt" "y"]]).warnings = [] ∧
    validationExitCode
      [FsEntry.file "data.txt" "x", FsEntry.dir "d" [FsEntry.file "notes.txt" "y"]] = 1 :=
  c5_amended_no_matching_files
    [FsEntry.file "data.txt" "x", FsEntry.dir "d" [FsEntry.file "notes.txt" "y"]] (by decide)

/-- C10: the validator reports at most one Error per (file, pattern) pair —
    each secret-exposure pattern contributes at most one finding per file
    because the scan `break`s at the first unsuppressed match — and on a
    file where the first pattern matches on two distinct lines outside any
    documentation context, exactly one Error results. -/
theorem c10_at_most_one_error_per_pattern :
    (∀ (pm : RE × String) (relPath : String) (content : List Char),
        (secretErrorForPattern relPath content pm).length ≤ 1) ∧
    (jsMatchAll (SECRET_EXPOSURE_PATTERNS.headD (REc 'x', "")).1
        "echo $A_KEY\necho $B_KEY".toList).length = 2 ∧
    secretErrorsFor "f.md" "echo $A_KEY\necho $B_KEY".toList =
      ["f.md: Echo command exposes secret KEY variable - Use Varlock instead!"] := by
  refine ⟨?_, by decide, by decide⟩
  intro pm rel c
  rw [secretErrorForPattern]
  split <;> simp

/-- C7 counterexample: in a code file whose first line containing the
    matched text `"lin_api_` is placeholder-shaped, a later match of the
    hardcoded-key pattern sits on a line matching no placeholder pattern,
    yet no Error is produced — the matched line does not decide suppression. -/
theorem c7_counterexample :
    hardcodedKeyErrors "f.ts"
      "const a = \"lin_api_xxx\"\nconst b = \"lin_api_secret\"".toList = [] ∧
    ((jsMatchAll keyPattern "const a = \"lin_api_xxx\"\nconst b = \"lin_api_secret\"".toList).any
      fun m =>
        !isPlaceholderKey
          ((splitOnChar '\n' "const a = \"lin_api_xxx\"\nconst b = \"lin_api_secret\"".toList).getD
            (lineIndexOf "const a = \"lin_api_xxx\"\nconst b = \"lin_api_secret\"".toList m.1)
            [])) = true := by
  constructor
  · decide
  · decide

/-- C7 amended: the line the key check consults is the FIRST line of the
    file containing the matched text; exactly one hardcoded-API-key Error is
    reported when some match's consulted line exists and is not
    placeholder-shaped, and none otherwise. -/
theorem c7_amended_first_containing_line (relPath : String) (content : List Char) :
    hardcodedKeyErrors relPath content =
      if (jsMatchAll keyPattern content).any
          (keyMatchFlagged (splitOnChar '\n' content) content) = true
      then [relPath ++ ": Contains hardcoded API key"] else [] := by
  simp only [hardcodedKeyErrors]
  cases hf : (jsMatchAll keyPattern content).find?
      (keyMatchFlagged (splitOnChar '\n' content) content) with
  | none =>
    have hany : ¬((jsMatchAll keyPattern content).any
        (keyMatchFlagged (splitOnChar '\n' content) content) = true) := by
      simp only [List.any_eq_true, not_exists]
      intro m
      have := List.find?_eq_none.mp hf m
      tauto
    rw [if_neg hany]
  | some m =>
    have hany : (jsMatchAll keyPattern content).any
        (keyMatchFlagged (splitOnChar '\n' content) content) = true := by
      rw [List.any_eq_true]
      exact ⟨m, List.mem_of_find?_eq_some hf, List.find?_some hf⟩
    rw [if_pos hany]

/-- C1: in a file where every match of every secret-exposure pattern lies in
    a documented-example context (the line-window heuristic accepts it),
    the scan produces zero secret-exposure Errors; for a non-code file —
    where the generalization check has no other Error source — the file
    contributes zero Errors altogether. -/
theorem c1_documented_examples_suppressed (relPath : String) (content : List Char)
    (h : (SECRET_EXPOSURE_PATTERNS.all fun pm =>
        (jsMatchAll pm.1 content).all fun m =>
          isDocumentationContext content (lineIndexOf content m.1)) = true) :
    secretErrorsFor relPath content = [] ∧
    (∀ lis, isCodeFileName relPath = false → (checkGenFile lis relPath content).1 = []) := by
  have h1 : ∀ pm ∈ SECRET_EXPOSURE_PATTERNS, secretErrorForPattern relPath content pm = [] := by
    intro pm hpm
    rw [secretErrorForPattern]
    have hall := (List.all_eq_true.mp h) pm hpm
    have hnone : (jsMatchAll pm.1 content).find?
        (fun m => !isDocumentationContext content (lineIndexOf content m.1)) = none := by
      rw [List.find?_eq_none]
      intro m hm
      have := (List.all_eq_true.mp hall) m hm
      simp [this]
    rw [hnone]
  have h2 : secretErrorsFor relPath content = [] := by
    rw [secretErrorsFor]
    exact List.flatMap_eq_nil_iff.mpr h1
  refine ⟨h2, ?_⟩
  intro lis hcode
  simp only [checkGenFile, hcode, h2]
  rfl

/-- C1 witness: a Markdown file demonstrating the anti-pattern inside a
    fenced block under an Anti-Patterns heading with a NEVER marker has all
    its matches suppressed and yields no Errors. -/
theorem c1_witness :
    secretErrorsFor "examples.md"
      "## Anti-Patterns\n\n```bash\n# ❌ NEVER do this:\necho $API_KEY\n```\n".toList = [] ∧
    (checkGenFile [0, 0] "examples.md"
      "## Anti-Patterns\n\n```bash\n# ❌ NEVER do this:\necho $API_KEY\n```\n".toList).1 = [] := by
  have := c1_documented_examples_suppressed "examples.md"
    "## Anti-Patterns\n\n```bash\n# ❌ NEVER do this:\necho $API_KEY\n```\n".toList (by decide)
  exact ⟨this.1, this.2 [0, 0] (by decide)⟩

/-- C2: a match of a secret-exposure pattern whose line window carries no
    documentation-context marker makes the file's secret-exposure Error list
    non-empty; concretely, a lone file whose content is the single line
    `echo $LINEAR_API_KEY` produces exactly one Error finding for that file,
    and the run fails with exit code 1. -/
theorem c2_unsuppressed_match_errors (relPath : String) (content : List Char)
    (h : (SECRET_EXPOSURE_PATTERNS.any fun pm =>
        (jsMatchAll pm.1 content).any fun m =>
          !isDocumentationContext content (lineIndexOf content m.1)) = true) :
    secretErrorsFor relPath content ≠ [] ∧
    (checkGeneralization [FsEntry.file "README.md" "echo $LINEAR_API_KEY"]).errors =
      ["README.md: Echo command exposes secret KEY variable - Use Varlock instead!"] ∧
    validationExitCode [FsEntry.file "README.md" "echo $LINEAR_API_KEY"] = 1 := by
  refine ⟨?_, by decide, by decide⟩
  obtain ⟨pm, hpm, hany⟩ := List.any_eq_true.mp h
  obtain ⟨m, hm, hunsup⟩ := List.any_eq_true.mp hany
  have hfind : (jsMatchAll pm.1 content).find?
      (fun x => !isDocumentationContext content (lineIndexOf content x.1)) ≠ none := by
    intro hn
    have := List.find?_eq_none.mp hn m hm
    rw [hunsup] at this
    exact this rfl
  have hne : secretErrorForPattern relPath content pm ≠ [] := by
    rw [secretErrorForPattern]
    cases hf : (jsMatchAll pm.1 content).find?
        (fun x => !isDocumentationContext content (lineIndexOf content x.1)) with
    | none => exact absurd hf hfind
    | some _ => simp
  intro hnil
  rw [secretErrorsFor] at hnil
  have := List.flatMap_eq_nil_iff.mp hnil pm hpm
  exact hne this

/-- C2 witness: the concrete scenario of the claim, with the general part
    instantiated at the single-line content. -/
theorem c2_witness :
    secretErrorsFor "f.md" "echo $LINEAR_API_KEY".toList ≠ [] ∧
    validationExitCode [FsEntry.file "README.md" "echo $LINEAR_API_KEY"] = 1 := by
  have := c2_unsuppressed_match_errors "f.md" "echo $LINEAR_API_KEY".toList (by decide)
  exact ⟨this.1, this.2.2⟩

/-- A line that never matches the name regex leaves the accumulated name
    unchanged through the fold. -/
theorem foldl_parseLine_name : ∀ (lines : List (List Char)) (st : ParseState),
    (∀ l ∈ lines, isNameLine l = false) →
    (lines.foldl parseLine st).name = st.name := by
  intro lines
  induction lines with
  | nil => intro st _; rfl
  | cons l ls ih =>
    intro st hall
    rw [List.foldl_cons, ih _ (fun x hx => hall x (List.mem_cons_of_mem _ hx))]
    have hl := hall l (List.mem_cons_self l _)
    simp only [parseLine, hl, Bool.false_eq_true, if_false]
    split <;> rfl

/-- A line that never matches the description regex leaves the accumulated
    description and triggers unchanged through the fold. -/
theorem foldl_parseLine_desc : ∀ (lines : List (List Char)) (st : ParseState),
    (∀ l ∈ lines, isDescLine l = false) →
    (lines.foldl parseLine st).description = st.description ∧
    (lines.foldl parseLine st).triggers = st.triggers := by
  intro lines
  induction lines with
  | nil => intro st _; exact ⟨rfl, rfl⟩
  | cons l ls ih =>
    intro st hall
    rw [List.foldl_cons]
    have step := ih (parseLine st l) (fun x hx => hall x (List.mem_cons_of_mem _ hx))
    have hl := hall l (List.mem_cons_self l _)
    have hstep : (parseLine st l).description = st.description ∧
        (parseLine st l).triggers = st.triggers := by
      simp only [parseLine, hl, Bool.false_eq_true, if_false]
      split <;> exact ⟨rfl, rfl⟩
    exact ⟨step.1.trans hstep.1, step.2.trans hstep.2⟩

/-- C6: a document without a front-matter block, and a document whose
    front-matter has no name line, both make `parseSkillMetadata` throw the
    corresponding descriptive error; any error from `generateSubagent` is
    reported with exit code 1 rather than a crash or a silently produced
    artifact. -/
theorem c6_missing_name_fails_descriptively :
    (∀ content : String, parseFrontmatter content.toList = none →
      parseSkillMetadata content = .error "No YAML frontmatter found in SKILL.md") ∧
    (∀ (content : String) (fm : List Char), parseFrontmatter content.toList = some fm →
      (∀ l ∈ splitOnChar '\n' fm, isNameLine l = false) →
      parseSkillMetadata content = .error "No name found in SKILL.md frontmatter") ∧
    (∀ (fs : Fs) (p : String) (o : GenOptions) (e : String),
      generateSubagent fs p o = .error e → generateCliExitCode fs p o = 1) := by
  refine ⟨?_, ?_, ?_⟩
  · intro content hnone
    rw [parseSkillMetadata, hnone]
  · intro content fm hsome hnoname
    rw [parseSkillMetadata, hsome]
    have hname : ((splitOnChar '\n' fm).foldl parseLine ⟨[], [], []⟩).name = [] :=
      foldl_parseLine_name _ _ hnoname
    simp only [hname, List.isEmpty_nil, if_true]
  · intro fs p o e herr
    rw [generateCliExitCode, herr]

/-- C6 witness: the three behaviours at concrete inputs — a document with no
    front-matter, a front-matter without a name line, and the CLI exit code
    for the latter. -/
theorem c6_witness :
    parseSkillMetadata "no front matter here" =
      .error "No YAML frontmatter found in SKILL.md" ∧
    parseSkillMetadata "---\ndescription: hi\n---\nx" =
      .error "No name found in SKILL.md frontmatter" ∧
    generateCliExitCode ⟨[("skill/SKILL.md", "---\ndescription: hi\n---\nx")], []⟩ "skill"
      ⟨none, none, none, false, false⟩ = 1 := by
  refine ⟨?_, ?_, ?_⟩
  · exact (c6_missing_name_fails_descriptively).1 "no front matter here" (by decide)
  · exact (c6_missing_name_fails_descriptively).2.1 "---\ndescription: hi\n---\nx"
      "description: hi".toList (by decide) (by decide)
  · exact (c6_missing_name_fails_descriptively).2.2
      ⟨[("skill/SKILL.md", "---\ndescription: hi\n---\nx")], []⟩ "skill"
      ⟨none, none, none, false, false⟩ "No name found in SKILL.md frontmatter" (by rfl)

/-- C9: a document whose front-matter has a name line but no description
    line parses successfully with empty description and empty trigger list;
    the empty-trigger fallback string is used for substitution, and
    generation runs to completion. -/
theorem c9_missing_description_defaults (content : String) (fm : List Char)
    (h1 : parseFrontmatter content.toList = some fm)
    (h2 : ∀ l ∈ splitOnChar '\n' fm, isDescLine l = false)
    (h3 : ((splitOnChar '\n' fm).foldl parseLine ⟨[], [], []⟩).name ≠ []) :
    parseSkillMetadata content =
      .ok ⟨String.mk ((splitOnChar '\n' fm).foldl parseLine ⟨[], [], []⟩).name, "", []⟩ ∧
    triggersStrOf
      ⟨String.mk ((splitOnChar '\n' fm).foldl parseLine ⟨[], [], []⟩).name, "", []⟩ =
      "delegated tasks for this skill" ∧
    (∀ (fs : Fs) (p : String) (o : GenOptions),
      fsFileExists fs (pathJoin p "SKILL.md") = true →
      fsRead fs (pathJoin p "SKILL.md") = content →
      fsFileExists fs templatePathStr = true →
      ∃ r, generateSubagent fs p o = .ok r) := by
  have hdesc := foldl_parseLine_desc (splitOnChar '\n' fm) ⟨[], [], []⟩ h2
  have hok : parseSkillMetadata content =
      .ok ⟨String.mk ((splitOnChar '\n' fm).foldl parseLine ⟨[], [], []⟩).name, "", []⟩ := by
    rw [parseSkillMetadata, h1]
    simp only [List.isEmpty_eq_false.mpr h3, Bool.false_eq_true, if_false]
    rw [hdesc.1, hdesc.2]
    rfl
  refine ⟨hok, by rw [triggersStrOf]; rfl, ?_⟩
  intro fs p o hfs hread htpl
  simp only [generateSubagent, hfs, hread, htpl, hok, if_true, Bool.not_true,
    Bool.false_eq_true, if_false]
  exact ⟨_, rfl⟩

/-- C9 witness: a concrete document with a name and no description parses to
    empty description and triggers, and generation succeeds against a
    concrete file system holding the template. -/
theorem c9_witness :
    parseSkillMetadata "---\nname: tester\n---\nSome body" = .ok ⟨"tester", "", []⟩ ∧
    triggersStrOf ⟨"tester", "", []⟩ = "delegated tasks for this skill" ∧
    ∃ r, generateSubagent
      ⟨[("s/SKILL.md", "---\nname: tester\n---\nSome body"),
        (templatePathStr, "# \x7b\x7bname\x7d\x7d")], []⟩
      "s" ⟨none, none, none, false, false⟩ = .ok r := by
  have h := c9_missing_description_defaults "---\nname: tester\n---\nSome body"
    "name: tester".toList (by decide) (by decide) (by decide)
  exact ⟨h.1, h.2.1, h.2.2 _ "s" ⟨none, none, none, false, false⟩ rfl rfl rfl⟩

/-- C8: with dry-run enabled the generator performs no file-system mutation —
    its effect list is empty — and the returned result (path, content
    preview, metadata, tools) is identical to a non-dry-run invocation on
    the same inputs. -/
theorem c8_dry_run_no_mutation (fs : Fs) (p : String) (o : GenOptions) :
    (generateSubagent fs p { o with dryRun := true }).map Prod.fst =
      (generateSubagent fs p { o with dryRun := false }).map Prod.fst ∧
    (∀ (r : GenerationResult) (effs : List FsEffect),
      generateSubagent fs p { o with dryRun := true } = .ok (r, effs) → effs = []) := by
  constructor
  · simp only [generateSubagent]
    split <;> split <;> first | rfl | (split <;> first | rfl | (split <;> rfl))
  · intro r effs h
    simp only [generateSubagent] at h
    split at h
    all_goals split at h
    all_goals try cases h
    all_goals split at h
    all_goals try cases h
    all_goals split at h
    all_goals try cases h
    all_goals rfl

/-- C8 witness: on a concrete file system the dry-run effect list is empty
    and the result agrees with the non-dry-run result. -/
theorem c8_witness :
    genEffectsOf (generateSubagent
      ⟨[("s/SKILL.md", "---\nname: demo\n---\nbody"),
        (templatePathStr, "# \x7b\x7bname\x7d\x7d")], []⟩
      "s" ⟨none, none, none, false, true⟩) = [] ∧
    (generateSubagent
      ⟨[("s/SKILL.md", "---\nname: demo\n---\nbody"),
        (templatePathStr, "# \x7b\x7bname\x7d\x7d")], []⟩
      "s" ⟨none, none, none, false, true⟩).map Prod.fst =
    (generateSubagent
      ⟨[("s/SKILL.md", "---\nname: demo\n---\nbody"),
        (templatePathStr, "# \x7b\x7bname\x7d\x7d")], []⟩
      "s" ⟨none, none, none, false, false⟩).map Prod.fst := by
  constructor
  · exact (c8_dry_run_no_mutation
      ⟨[("s/SKILL.md", "---\nname: demo\n---\nbody"),
        (templatePathStr, "# \x7b\x7bname\x7d\x7d")], []⟩
      "s" ⟨none, none, none, false, true⟩).2
      (genResultOf (generateSubagent
        ⟨[("s/SKILL.md", "---\nname: demo\n---\nbody"),
          (templatePathStr, "# \x7b\x7bname\x7d\x7d")], []⟩
        "s" ⟨none, none, none, false, true⟩))
      (genEffectsOf (generateSubagent
        ⟨[("s/SKILL.md", "---\nname: demo\n---\nbody"),
          (templatePathStr, "# \x7b\x7bname\x7d\x7d")], []⟩
        "s" ⟨none, none, none, false, true⟩))
      (by rfl)
  · exact (c8_dry_run_no_mutation
      ⟨[("s/SKILL.md", "---\nname: demo\n---\nbody"),
        (templatePathStr, "# \x7b\x7bname\x7d\x7d")], []⟩
      "s" ⟨none, none, none, false, true⟩).1

/-- A successful prefix test bounds the needle's length. -/
theorem isPrefixOfB_length_le : ∀ (n s : List Char), isPrefixOfB n s = true →
    n.length ≤ s.length := by
  intro n
  induction n with
  | nil => intro s _; simp
  | cons a as ih =>
    intro s h
    cases s with
    | nil => simp [isPrefixOfB] at h
    | cons b bs =>
      simp only [isPrefixOfB, Bool.and_eq_true] at h
      have := ih bs h.2
      simp
      omega

/-- A prefix of `s` is a prefix of `s ++ t`. -/
theorem isPrefixOfB_append_of : ∀ (n s t : List Char), isPrefixOfB n s = true →
    isPrefixOfB n (s ++ t) = true := by
  intro n
  induction n with
  | nil => intro s t _; rfl
  | cons a as ih =>
    intro s t h
    cases s with
    | nil => simp [isPrefixOfB] at h
    | cons b bs =>
      simp only [isPrefixOfB, Bool.and_eq_true] at h
      simp only [List.cons_append, isPrefixOfB, Bool.and_eq_true]
      exact ⟨h.1, ih bs t h.2⟩

/-- When the needle fits inside `u`, appending more text does not change the
    prefix test. -/
theorem isPrefixOfB_append_left : ∀ (n u t : List Char), n.length ≤ u.length →
    isPrefixOfB n (u ++ t) = isPrefixOfB n u := by
  intro n
  induction n with
  | nil => intro u t _; rfl
  | cons a as ih =>
    intro u t h
    cases u with
    | nil => simp at h
    | cons b bs =>
      simp only [List.cons_append, isPrefixOfB, List.append_eq]
      rw [ih bs t (by simp at h; omega)]

/-- A successful substring test bounds the needle's length. -/
theorem containsSub_length_le : ∀ (n s : List Char), containsSub n s = true →
    n.length ≤ s.length := by
  intro n s
  induction s with
  | nil =>
    intro h
    simp only [containsSub] at h
    have := isPrefixOfB_length_le n [] h
    simpa using this
  | cons c rest ih =>
    intro h
    simp only [containsSub, Bool.or_eq_true] at h
    cases h with
    | inl h => exact isPrefixOfB_length_le _ _ h
    | inr h => have := ih h; simp; omega

/-- Every list is a prefix of itself followed by anything. -/
theorem isPrefixOfB_self_append : ∀ (n t : List Char), isPrefixOfB n (n ++ t) = true := by
  intro n
  induction n with
  | nil => intro t; rfl
  | cons a as ih =>
    intro t
    simp only [List.cons_append, isPrefixOfB, Bool.and_eq_true]
    exact ⟨by simp, ih t⟩

/-- A list that textually contains the needle passes the substring test. -/
theorem containsSub_sandwich : ∀ (x n y : List Char), containsSub n (x ++ (n ++ y)) = true := by
  intro x n y
  induction x with
  | nil =>
    cases n with
    | nil => cases y <;> simp [containsSub, isPrefixOfB]
    | cons a as =>
      simp only [List.nil_append, containsSub, Bool.or_eq_true]
      exact Or.inl (isPrefixOfB_self_append _ _)
  | cons c x' ih =>
    simp only [List.cons_append, containsSub, Bool.or_eq_true]
    exact Or.inr ih

/-- `dropAfterWhen` on `u ++ t` lands inside `u` whenever `u` itself contains
    `when`: the remainder is `w ++ t` for some `w` drawn from `u`. -/
theorem dropAfterWhen_append : ∀ (u t : List Char), containsSub "when".toList u = true →
    ∃ w, dropAfterWhen (u ++ t) = some (w ++ t) ∧ ∀ c ∈ w, c ∈ u := by
  intro u
  induction u with
  | nil => intro t h; simp [containsSub, isPrefixOfB] at h
  | cons c u' ih =>
    intro t h
    simp only [containsSub, Bool.or_eq_true] at h
    by_cases hp : isPrefixOfB "when".toList (c :: u') = true
    · have hlen : 4 ≤ u'.length + 1 := by
        have := isPrefixOfB_length_le _ _ hp
        simpa using this
      refine ⟨u'.drop 3, ?_, ?_⟩
      · rw [List.cons_append, dropAfterWhen,
          if_pos (by
            have := isPrefixOfB_append_of _ (c :: u') t hp
            rwa [List.cons_append] at this),
          List.drop_append_of_le_length (by omega)]
      · intro x hx
        exact List.mem_cons_of_mem _ (List.mem_of_mem_drop hx)
    · have hc : containsSub "when".toList u' = true := by tauto
      have hlen : 4 ≤ u'.length := by
        have := containsSub_length_le _ _ hc
        simpa using this
      have hpext : isPrefixOfB "when".toList (c :: (u' ++ t)) = false := by
        have h4 : ("when".toList).length ≤ (c :: u').length := by simp; omega
        have heq := isPrefixOfB_append_left "when".toList (c :: u') t h4
        rw [List.cons_append] at heq
        rw [heq]
        simpa using hp
      obtain ⟨w, hw, hmem⟩ := ih t hc
      refine ⟨w, ?_, fun x hx => List.mem_cons_of_mem _ (hmem x hx)⟩
      rw [List.cons_append, dropAfterWhen, hpext]
      simpa using hw

/-- `takeWhile`/`dropWhile` on a quote-free run followed by a quote. -/
theorem takeWhile_quote_free : ∀ (A r : List Char), (∀ c ∈ A, (c == '"') = false) →
    (A ++ '"' :: r).takeWhile (fun x => !(x == '"')) = A ∧
    (A ++ '"' :: r).dropWhile (fun x => !(x == '"')) = '"' :: r := by
  intro A
  induction A with
  | nil =>
    intro r _
    constructor
    · rw [List.nil_append, List.takeWhile_cons_of_neg]
      simp
    · rw [List.nil_append, List.dropWhile_cons_of_neg]
      simp
  | cons a A' ih =>
    intro r hq
    have ha := hq a (List.mem_cons_self a _)
    have hrest := ih r (fun c hc => hq c (List.mem_cons_of_mem _ hc))
    constructor
    · rw [List.cons_append, List.takeWhile_cons_of_pos (by simp [ha]), hrest.1]
    · rw [List.cons_append, List.dropWhile_cons_of_pos (by simp [ha]), hrest.2]

/-- `findQuoted` over a quote-free garbage prefix, then a quoted non-empty
    quote-free run: it returns the run and the text after the closing
    quote. -/
theorem findQuoted_append : ∀ (u A r : List Char),
    (∀ c ∈ u, (c == '"') = false) → (∀ c ∈ A, (c == '"') = false) → A ≠ [] →
    findQuoted (u ++ ('"' :: (A ++ '"' :: r))) = some (A, r) := by
  intro u
  induction u with
  | nil =>
    intro A r _ hA hAne
    have hw := takeWhile_quote_free A r hA
    rw [List.nil_append, findQuoted]
    simp only [beq_self_eq_true, if_true, hw.1, hw.2, List.isEmpty_eq_false.mpr hAne,
      Bool.false_eq_true, if_false]
  | cons c u' ih =>
    intro A r hu hA hAne
    have hc := hu c (List.mem_cons_self c _)
    rw [List.cons_append, findQuoted]
    rw [if_neg (by simp at hc ⊢; exact hc)]
    exact ih A r (fun x hx => hu x (List.mem_cons_of_mem _ hx)) hA hAne

/-- One round of trigger extraction: a `when`-containing quote-free prefix,
    then a quoted non-empty quote-free phrase, yields that phrase and
    continues after its closing quote. -/
theorem extractTriggers_build : ∀ (u A r : List Char),
    containsSub "when".toList u = true → (∀ c ∈ u, (c == '"') = false) →
    A ≠ [] → (∀ c ∈ A, (c == '"') = false) →
    extractTriggers (u ++ ('"' :: (A ++ '"' :: r))) = A :: extractTriggers r := by
  intro u A r hwhen hu hAne hA
  obtain ⟨w, hw, hmem⟩ := dropAfterWhen_append u ('"' :: (A ++ '"' :: r)) hwhen
  have hwq : ∀ c ∈ w, (c == '"') = false := fun c hc => hu c (hmem c hc)
  have hfq := findQuoted_append w A r hwq hA hAne
  have hlen : r.length < (u ++ ('"' :: (A ++ '"' :: r))).length := by
    simp
    omega
  rw [extractTriggers, extractTriggersF, hw]
  simp only [hfq]
  rw [extractTriggers]
  exact congrArg (A :: ·) (extractTriggersF_fuel _ _ r (by omega) (by omega))

/-- Right trim is the identity when the last character is not whitespace. -/
theorem jsTrimRight_last (xs : List Char) (b : Char) (hb : jsSpace b = false) :
    jsTrimRight (xs ++ [b]) = xs ++ [b] := by
  rw [jsTrimRight, show (xs ++ [b]).reverse = b :: xs.reverse by simp]
  rw [List.dropWhile_cons_of_neg (by simp [hb])]
  simp

/-- A replacement string without `$` expands to itself. -/
theorem expandRepl_no_dollar : ∀ (repl m b a : List Char),
    (∀ c ∈ repl, (c == '$') = false) → expandRepl m b a repl = repl := by
  intro repl
  induction repl with
  | nil => intro m b a _; rfl
  | cons c rest ih =>
    intro m b a h
    have hc := h c (List.mem_cons_self c _)
    rw [expandRepl.eq_def]
    simp only [if_neg (show ¬((c == '$') = true) by simp at hc ⊢; exact hc)]
    rw [ih m b a (fun x hx => h x (List.mem_cons_of_mem _ hx))]

/-- Replacing a needle whose head character never occurs in the scanned text
    changes nothing. -/
theorem jsReplaceAllGoF_no_head (d : Char) (tail repl orig : List Char) :
    ∀ (fuel : Nat) (s : List Char) (pos : Nat), (∀ c ∈ s, (c == d) = false) →
    jsReplaceAllGoF (d :: tail) repl orig fuel s pos = s := by
  intro fuel
  induction fuel with
  | zero => intro s pos _; rfl
  | succ fuel ih =>
    intro s pos h
    cases s with
    | nil => rfl
    | cons c rest =>
      have hc := h c (List.mem_cons_self c _)
      rw [jsReplaceAllGoF, if_neg (by
        simp only [isPrefixOfB, Bool.and_eq_true, not_and]
        intro h1
        exact absurd (eq_of_beq h1.1).symm (by simpa using hc))]
      rw [ih rest (pos + 1) (fun x hx => h x (List.mem_cons_of_mem _ hx))]

/-- Wrapper form of `jsReplaceAllGoF_no_head`. -/
theorem jsReplaceAll_no_head (d : Char) (tail repl s : List Char)
    (h : ∀ c ∈ s, (c == d) = false) : jsReplaceAll (d :: tail) repl s = s :=
  jsReplaceAllGoF_no_head d tail repl s s.length s 0 h

/-- C4 amended: trigger round-trip holds only when EACH quoted phrase is
    preceded by its own `when` (the `g`-flagged regex needs a fresh `when`
    before every quoted group); for such a description the parsed trigger
    list is exactly the two phrases in order, and the template's triggers
    placeholder receives exactly the two phrases, quoted and
    comma-separated.  The phrases must not contain quotes (they are quoted
    substrings), `$` (JS replacement-string escapes) or `{` (later
    placeholder substitutions). -/
theorem c4_amended_each_phrase_needs_when (content : String) (fm A B : List Char)
    (h1 : parseFrontmatter content.toList = some fm)
    (h2 : splitOnChar '\n' fm =
      ["name: myskill".toList,
       "description: This skill should be used when \"".toList ++
         (A ++ ("\" and when \"".toList ++ (B ++ ['"'])))])
    (hA : A ≠ []) (hB : B ≠ [])
    (hAq : ∀ c ∈ A, (c == '"') = false) (hBq : ∀ c ∈ B, (c == '"') = false)
    (hAd : ∀ c ∈ A, (c == '$') = false) (hBd : ∀ c ∈ B, (c == '$') = false)
    (hAb : ∀ c ∈ A, (c == Char.ofNat 123) = false)
    (hBb : ∀ c ∈ B, (c == Char.ofNat 123) = false) :
    parseSkillMetadata content =
      .ok ⟨"myskill",
        String.mk ("This skill should be used when \"".toList ++
          (A ++ ("\" and when \"".toList ++ (B ++ ['"'])))),
        [String.mk A, String.mk B]⟩ ∧
    (∀ tools : List String,
      generateSubagentContent
        ⟨"myskill",
         String.mk ("This skill should be used when \"".toList ++
           (A ++ ("\" and when \"".toList ++ (B ++ ['"'])))),
         [String.mk A, String.mk B]⟩ tools "\x7b\x7btriggers\x7d\x7d" =
      "\"" ++ String.mk A ++ "\", \"" ++ String.mk B ++ "\"") := by
  set D : List Char := "This skill should be used when \"".toList ++
    (A ++ ("\" and when \"".toList ++ (B ++ ['"']))) with hD
  have hshape : D = ("This skill should be used when \"".toList ++
      (A ++ ("\" and when \"".toList ++ B))) ++ ['"'] := by
    rw [hD]
    simp [List.append_assoc]
  have htrim : jsTrim (' ' :: D) = D := by
    rw [jsTrim]
    have hleft : jsTrimLeft (' ' :: D) = D := by
      show List.dropWhile jsSpace (' ' :: D) = D
      rw [List.dropWhile_cons_of_pos (by decide)]
      rw [hD, show "This skill should be used when \"".toList ++
        (A ++ ("\" and when \"".toList ++ (B ++ ['"']))) =
        'T' :: ("his skill should be used when \"".toList ++
          (A ++ ("\" and when \"".toList ++ (B ++ ['"'])))) from rfl]
      rw [List.dropWhile_cons_of_neg (by decide)]
    rw [hleft, hshape]
    exact jsTrimRight_last _ _ (by decide)
  have hextract : extractTriggers D = [A, B] := by
    rw [hD, show "This skill should be used when \"".toList ++
      (A ++ ("\" and when \"".toList ++ (B ++ ['"']))) =
      "This skill should be used when ".toList ++
        ('"' :: (A ++ '"' :: (" and when \"".toList ++ (B ++ ['"'])))) from rfl]
    rw [extractTriggers_build _ _ _ (by decide) (by decide) hA hAq]
    rw [show " and when \"".toList ++ (B ++ ['"']) =
      " and when ".toList ++ ('"' :: (B ++ '"' :: ([] : List Char))) from rfl]
    rw [extractTriggers_build _ _ _ (by decide) (by decide) hB hBq]
    rfl
  have hfold : (splitOnChar '\n' fm).foldl parseLine ⟨[], [], []⟩ =
      ⟨"myskill".toList, jsTrim (' ' :: D), extractTriggers (jsTrim (' ' :: D))⟩ := by
    rw [h2]
    rfl
  have hparse : parseSkillMetadata content =
      .ok ⟨"myskill", String.mk D, [String.mk A, String.mk B]⟩ := by
    simp only [parseSkillMetadata, h1]
    rw [hfold, htrim, hextract]
    rfl
  refine ⟨hparse, ?_⟩
  intro tools
  have hR : (triggersStrOf ⟨"myskill", String.mk D, [String.mk A, String.mk B]⟩).toList =
      (((['"'] ++ A) ++ ['"']) ++ [',', ' ']) ++ ((['"'] ++ B) ++ ['"']) := rfl
  have hRd : ∀ c ∈ (triggersStrOf
      ⟨"myskill", String.mk D, [String.mk A, String.mk B]⟩).toList, (c == '$') = false := by
    intro c hc
    rw [hR] at hc
    simp only [List.mem_append, List.mem_cons, List.mem_singleton,
      List.not_mem_nil, or_false] at hc
    have hc' : c = '"' ∨ c ∈ A ∨ c = ',' ∨ c = ' ' ∨ c ∈ B := by tauto
    rcases hc' with h | h | h | h | h
    · subst h; decide
    · exact hAd c h
    · subst h; decide
    · subst h; decide
    · exact hBd c h
  have hRb : ∀ c ∈ (triggersStrOf
      ⟨"myskill", String.mk D, [String.mk A, String.mk B]⟩).toList,
      (c == Char.ofNat 123) = false := by
    intro c hc
    rw [hR] at hc
    simp only [List.mem_append, List.mem_cons, List.mem_singleton,
      List.not_mem_nil, or_false] at hc
    have hc' : c = '"' ∨ c ∈ A ∨ c = ',' ∨ c = ' ' ∨ c ∈ B := by tauto
    rcases hc' with h | h | h | h | h
    · subst h; decide
    · exact hAb c h
    · subst h; decide
    · subst h; decide
    · exact hBb c h
  simp only [generateSubagentContent]
  rw [show jsReplaceAll "\x7b\x7bname\x7d\x7d".toList "myskill".toList
      "\x7b\x7btriggers\x7d\x7d".toList = "\x7b\x7btriggers\x7d\x7d".toList from rfl]
  rw [show jsReplaceAll "\x7b\x7bdescription\x7d\x7d".toList (String.mk D).toList
      "\x7b\x7btriggers\x7d\x7d".toList = "\x7b\x7btriggers\x7d\x7d".toList from rfl]
  rw [show jsReplaceAll "\x7b\x7btriggers\x7d\x7d".toList
      (triggersStrOf ⟨"myskill", String.mk D, [String.mk A, String.mk B]⟩).toList
      "\x7b\x7btriggers\x7d\x7d".toList =
      expandRepl "\x7b\x7btriggers\x7d\x7d".toList [] []
        (triggersStrOf ⟨"myskill", String.mk D, [String.mk A, String.mk B]⟩).toList ++
        ([] : List Char) from rfl]
  rw [expandRepl_no_dollar _ _ _ _ hRd, List.append_nil]
  rw [show "\x7b\x7btools\x7d\x7d".toList =
    Char.ofNat 123 :: "\x7btools\x7d\x7d".toList from rfl]
  rw [jsReplaceAll_no_head _ _ _ _ hRb]
  apply String.ext
  show (triggersStrOf ⟨"myskill", String.mk D, [String.mk A, String.mk B]⟩).toList = _
  rw [hR]
  show _ = (((['"'] ++ A) ++ ('"' :: ',' :: ' ' :: ['"'])) ++ B) ++ ['"']
  simp [List.append_assoc]

/-- C4 counterexample: a description containing both quoted phrases but only
    ONE `when` yields the trigger list `["phrase A"]`, not
    `["phrase A", "phrase B"]` — the second phrase has no preceding `when`
    left for the regex to consume. -/
theorem c4_counterexample :
    parseSkillMetadata
      "---\nname: myskill\ndescription: This skill should be used when \"phrase A\" or \"phrase B\" is mentioned\n---\nBody" =
      .ok ⟨"myskill",
        "This skill should be used when \"phrase A\" or \"phrase B\" is mentioned",
        ["phrase A"]⟩ ∧
    ¬(["phrase A"] = ["phrase A", "phrase B"]) := by
  exact ⟨by rfl, by decide⟩

/-- C4 witness: with a `when` before each phrase, the round-trip holds at
    the concrete phrases of the claim. -/
theorem c4_witness :
    parseSkillMetadata
      "---\nname: myskill\ndescription: This skill should be used when \"phrase A\" and when \"phrase B\"\n---\nBody" =
      .ok ⟨"myskill",
        "This skill should be used when \"phrase A\" and when \"phrase B\"",
        ["phrase A", "phrase B"]⟩ ∧
    generateSubagentContent
      ⟨"myskill", "This skill should be used when \"phrase A\" and when \"phrase B\"",
        ["phrase A", "phrase B"]⟩ ["Read"] "\x7b\x7btriggers\x7d\x7d" =
      "\"phrase A\", \"phrase B\"" := by
  have h := c4_amended_each_phrase_needs_when
    "---\nname: myskill\ndescription: This skill should be used when \"phrase A\" and when \"phrase B\"\n---\nBody"
    "name: myskill\ndescription: This skill should be used when \"phrase A\" and when \"phrase B\"".toList
    "phrase A".toList "phrase B".toList
    (by decide) (by decide) (by decide) (by decide) (by decide) (by decide)
    (by decide) (by decide) (by decide) (by decide)
  exact ⟨h.1, h.2 ["Read"]⟩
